import Mathlib

/-!
Shallow embedding of the LeX input system of chap02/input_system/input.c.

The C file manages a single fixed byte array Start_buf of BUFSIZE bytes
together with pointers End_buf, Next, sMark, eMark, pMark into it, line
counters, a saved terminator byte, an end-of-file flag, and the current
input stream.  Pointers are embedded as natural-number offsets from
Start_buf (the pointer END, just past the buffer, is the offset BUFSIZE).
The input stream and the read system call are embedded as a list of the
bytes not yet delivered: a read of n bytes removes min n (length) bytes
from the front, which is the behaviour of read on a regular file.  The
fatal path (the ferr calls, which print a message and terminate the
process) is embedded as Except.error.

Pointer comparisons such as Next >= End_buf - MAXLOOK are embedded with
truncated natural subtraction; for offsets this coincides with the pointer
comparison, because a + 16 >= b holds iff a >= b - 16 in both readings.
-/

namespace InputSystem

set_option maxRecDepth 100000

/-- MAXLOOK of input.c: maximum amount of lookahead. -/
def MAXLOOK : Nat := 16

/-- MAXLEN of input.c: maximum lexeme size, also the read unit of ii_fillbuf. -/
def MAXLEN : Nat := 1024

/-- BUFSIZE of input.c: 3 * MAXLEN + 2 * MAXLOOK. -/
def BUFSIZE : Nat := 3 * MAXLEN + 2 * MAXLOOK

/-- The mutable global state of input.c.  Offsets are from Start_buf; the
pointer value END is the offset BUFSIZE.  pMark is NULL or an offset.
been_called is the static flag inside ii_advance. -/
structure IIState where
  buf : List Nat
  end_buf : Nat
  next : Nat
  sMark : Nat
  eMark : Nat
  pMark : Option Nat
  pLineno : Int
  pLength : Int
  lineno : Int
  mline : Int
  termchar : Nat
  eof_read : Bool
  been_called : Bool
  source : List Nat
deriving DecidableEq

/-- The state at program start: static array zero-initialised, every pointer
at END, Lineno = Mline = 1, pMark NULL, nothing read yet. -/
def initState (src : List Nat) : IIState :=
  { buf := List.replicate BUFSIZE 0
    end_buf := BUFSIZE
    next := BUFSIZE
    sMark := BUFSIZE
    eMark := BUFSIZE
    pMark := none
    pLineno := 0
    pLength := 0
    lineno := 1
    mline := 1
    termchar := 0
    eof_read := false
    been_called := false
    source := src }

/-- NO_MORE_CHARS() of input.c: Eof_read and Next >= End_buf. -/
def noMoreChars (s : IIState) : Bool :=
  s.eof_read && decide (s.end_buf ≤ s.next)

/-- ii_newfile: on a successful open (embedded as some src) reset Next,
sMark, eMark, End_buf to END, Lineno and Mline to 1 and Eof_read to false,
and install the new stream.  pMark, pLineno, pLength, Termchar and the
static been_called flag of ii_advance are not touched.  On a failed open
(none) nothing changes. -/
def ii_newfile (newSource : Option (List Nat)) (s : IIState) : IIState :=
  match newSource with
  | none => s
  | some src =>
    { s with
      eof_read := false
      next := BUFSIZE
      sMark := BUFSIZE
      eMark := BUFSIZE
      end_buf := BUFSIZE
      lineno := 1
      mline := 1
      source := src }

/-- ii_mark_start: Mline = Lineno; eMark = sMark = Next. -/
def ii_mark_start (s : IIState) : IIState :=
  { s with mline := s.lineno, eMark := s.next, sMark := s.next }

/-- ii_mark_end: Mline = Lineno; eMark = Next. -/
def ii_mark_end (s : IIState) : IIState :=
  { s with mline := s.lineno, eMark := s.next }

/-- ii_move_start: advance sMark one position unless sMark >= eMark. -/
def ii_move_start (s : IIState) : Option IIState :=
  if s.eMark ≤ s.sMark then none else some { s with sMark := s.sMark + 1 }

/-- ii_to_mark: Lineno = Mline; Next = eMark. -/
def ii_to_mark (s : IIState) : IIState :=
  { s with lineno := s.mline, next := s.eMark }

/-- ii_mark_prev: pMark = sMark; pLineno = Lineno; pLength = eMark - sMark. -/
def ii_mark_prev (s : IIState) : IIState :=
  { s with
    pMark := some s.sMark
    pLineno := s.lineno
    pLength := (s.eMark : Int) - (s.sMark : Int) }

/-- The left edge used by ii_flush: min(sMark, pMark) when pMark is set,
otherwise sMark. -/
def leftEdgeOf (s : IIState) : Nat :=
  match s.pMark with
  | some p => min s.sMark p
  | none => s.sMark

/-- ii_fillbuf: request need = ((END - starting_at) / MAXLEN) * MAXLEN
bytes; 0 requested means return 0 at once.  Otherwise read, set
End_buf = starting_at + got, set Eof_read when the read returned no
bytes, and return got.  The read delivers min need (source length) bytes
of the stream. -/
def ii_fillbuf (starting_at : Nat) (s : IIState) : Nat × IIState :=
  let need := ((BUFSIZE - starting_at) / MAXLEN) * MAXLEN
  if need = 0 then (0, s)
  else
    let got := min need s.source.length
    (got,
      { s with
        buf := s.buf.take starting_at ++ s.source.take got
                 ++ s.buf.drop (starting_at + got)
        end_buf := starting_at + got
        source := s.source.drop got
        eof_read := decide (got = 0) || s.eof_read })

/-- ii_flush: return 0 on NO_MORE_CHARS, 1 when Eof_read, otherwise act
only when Next is in the danger zone or the flush is forced.  The left
edge is min(sMark, pMark); when it is nearer than MAXLEN to the buffer
origin a non-forced flush returns -1 untouched, while a forced flush
first redoes ii_mark_start and ii_mark_prev at Next.  The surviving
bytes from the left edge up to End_buf are copied to the buffer origin,
the freed tail is refilled, and a refill that returns 0 is the fatal
internal error.  Finally every pointer is rebased by the shift amount. -/
def ii_flush (force : Bool) (s : IIState) : Except Unit (Int × IIState) :=
  if noMoreChars s = true then .ok (0, s)
  else if s.eof_read = true then .ok (1, s)
  else if s.end_buf - MAXLOOK ≤ s.next ∨ force = true then
    if leftEdgeOf s < MAXLEN ∧ force = false then .ok (-1, s)
    else
      let s1 := if leftEdgeOf s < MAXLEN then ii_mark_prev (ii_mark_start s) else s
      let left1 := if leftEdgeOf s < MAXLEN then s.next else leftEdgeOf s
      let copy := s1.end_buf - left1
      let s2 := { s1 with buf := (s1.buf.drop left1).take copy ++ s1.buf.drop copy }
      let fres := ii_fillbuf copy s2
      if fres.1 = 0 then .error ()
      else
        .ok (1,
          { fres.2 with
            pMark := (fres.2).pMark.map (fun p => p - left1)
            sMark := (fres.2).sMark - left1
            eMark := (fres.2).eMark - left1
            next := (fres.2).next - left1 })
  else .ok (1, s)

/-- ii_advance: on the very first call seed the synthetic newline at
END - 1 and decrement Lineno and Mline.  Return 0 on NO_MORE_CHARS.
Otherwise, when Eof_read is still false, run a non-forced flush and
return -1 if it refused.  Then deliver the byte at Next, incrementing
Lineno when it is a newline, and step Next. -/
def ii_advance (s0 : IIState) : Except Unit (Int × IIState) :=
  let s :=
    if s0.been_called then s0
    else
      { s0 with
        next := BUFSIZE - 1
        sMark := BUFSIZE - 1
        eMark := BUFSIZE - 1
        buf := s0.buf.set (BUFSIZE - 1) 10
        lineno := s0.lineno - 1
        mline := s0.mline - 1
        been_called := true }
  if noMoreChars s = true then .ok (0, s)
  else
    match (if s.eof_read then Except.ok (1, s) else ii_flush false s) with
    | .error e => .error e
    | .ok (r, s1) =>
      if r < 0 then .ok (-1, s1)
      else
        let c := s1.buf.getD s1.next 0
        let s2 := if c = 10 then { s1 with lineno := s1.lineno + 1 } else s1
        .ok ((c : Int), { s2 with next := s2.next + 1 })

/-- ii_look: with p = Next + (n - 1), return EOF (-1) when Eof_read and
p >= End_buf, 0 when p is outside [Start_buf, End_buf), and the byte at
p otherwise.  The state is never modified. -/
def ii_look (n : Int) (s : IIState) : Int × IIState :=
  let p : Int := (s.next : Int) + (n - 1)
  if s.eof_read = true ∧ (s.end_buf : Int) ≤ p then (-1, s)
  else if p < 0 ∨ (s.end_buf : Int) ≤ p then (0, s)
  else ((s.buf.getD p.toNat 0 : Int), s)

/-- One iteration of the loop of ii_pusback: step Next back one position
and decrement Lineno when the byte stepped over is a newline or a zero
byte (the test *--Next == the newline character || !*Next). -/
def pushStep (s : IIState) : IIState :=
  { s with
    next := s.next - 1
    lineno :=
      if s.buf.getD (s.next - 1) 0 = 10 ∨ s.buf.getD (s.next - 1) 0 = 0 then
        s.lineno - 1
      else s.lineno }

/-- The loop of ii_pusback: iterate pushStep while iterations remain and
Next > sMark. -/
def pushLoop : Nat → IIState → IIState
  | 0, s => s
  | Nat.succ n, s => if s.sMark < s.next then pushLoop n (pushStep s) else s

/-- ii_pusback: run the loop, then pull eMark and Mline back to Next when
Next ended up left of eMark, and return whether Next is still strictly
right of sMark. -/
def ii_pusback (n : Nat) (s : IIState) : Bool × IIState :=
  let s1 := pushLoop n s
  let s2 :=
    if s1.next < s1.eMark then { s1 with eMark := s1.next, mline := s1.lineno } else s1
  (decide (s2.sMark < s2.next), s2)

/-- ii_term: save the byte at Next in Termchar and write 0 over it. -/
def ii_term (s : IIState) : IIState :=
  { s with termchar := s.buf.getD s.next 0, buf := s.buf.set s.next 0 }

/-- ii_unterm: when Termchar is nonzero write it back at Next and clear
Termchar; otherwise do nothing. -/
def ii_unterm (s : IIState) : IIState :=
  if s.termchar ≠ 0 then
    { s with buf := s.buf.set s.next s.termchar, termchar := 0 }
  else s

/-- Run ii_advance n times, collecting the returned values, stopping with
an error if any call hits the fatal path. -/
def advances : Nat → IIState → Except Unit (List Int × IIState)
  | 0, s => .ok ([], s)
  | Nat.succ n, s =>
    match ii_advance s with
    | .error e => .error e
    | .ok (v, s1) =>
      match advances n s1 with
      | .error e => .error e
      | .ok (vs, s2) => .ok (v :: vs, s2)

/-- The state after n calls of ii_advance from the initial state on the
given stream (the initial state again if the run dies on the fatal path,
which the concrete runs below never do). -/
def afterAdvances (n : Nat) (src : List Nat) : IIState :=
  match advances n (initState src) with
  | .ok (_, s) => s
  | .error _ => initState src

/-- Number of offsets i in [lo, lo + k) whose buffer byte is a newline or a
zero byte; this is what the loop of ii_pusback subtracts from Lineno. -/
def countNZ (buf : List Nat) (lo k : Nat) : Nat :=
  (List.range' lo k).countP (fun i => decide (buf.getD i 0 = 10 ∨ buf.getD i 0 = 0))

/-- The bytes the cursor will deliver next: offsets next, ..., next + k - 1. -/
def window (s : IIState) (k : Nat) : List Nat :=
  (List.range' s.next k).map (fun i => s.buf.getD i 0)

/-- The left edge ii_flush ends up shifting from: the marked left edge, or
Next when a forced flush sacrifices the saved lexemes. -/
def flushEdge (s : IIState) : Nat :=
  if leftEdgeOf s < MAXLEN then s.next else leftEdgeOf s

/-- The amount by which ii_flush rebases pointers: flushEdge when the
shifting branch runs, 0 on every early-return path. -/
def flushShift (s : IIState) (force : Bool) : Nat :=
  if noMoreChars s = false ∧ s.eof_read = false
      ∧ (s.end_buf - MAXLOOK ≤ s.next ∨ force = true) then
    flushEdge s
  else 0

/-! Generic list access lemmas used by the proofs below. -/

theorem getD_append_left (l1 l2 : List Nat) (n : Nat) (h : n < l1.length) :
    (l1 ++ l2).getD n 0 = l1.getD n 0 := by
  simp [List.getD_eq_getElem?_getD, List.getElem?_append_left h]

theorem getD_take_lt (l : List Nat) (m n : Nat) (h : n < m) :
    (l.take m).getD n 0 = l.getD n 0 := by
  simp [List.getD_eq_getElem?_getD, List.getElem?_take, h]

theorem getD_drop_add (l : List Nat) (m n : Nat) :
    (l.drop m).getD n 0 = l.getD (m + n) 0 := by
  simp [List.getD_eq_getElem?_getD, List.getElem?_drop]

theorem getD_le_of_all_le (l : List Nat) (n : Nat) (h : ∀ b ∈ l, b ≤ 255) :
    l.getD n 0 ≤ 255 := by
  rw [List.getD_eq_getElem?_getD]
  cases hg : l[n]? with
  | none => simp
  | some v => simpa using h v (List.getElem?_mem hg)

theorem getD_set_self (l : List Nat) (n a : Nat) (h : n < l.length) :
    (l.set n a).getD n 0 = a := by
  simp [List.getD_eq_getElem?_getD, List.getElem?_set_self h]

/-- Behaviour of the loop of ii_pusback: the cursor retreats by
min n (next - sMark), Lineno drops by the count of newline and zero bytes
stepped over, and every other component is untouched. -/
theorem pushLoop_spec (n : Nat) (s : IIState) (h : s.sMark ≤ s.next) :
    (pushLoop n s).next = s.next - min n (s.next - s.sMark)
    ∧ (pushLoop n s).lineno
        = s.lineno - (countNZ s.buf (pushLoop n s).next (s.next - (pushLoop n s).next) : Int)
    ∧ (pushLoop n s).buf = s.buf
    ∧ (pushLoop n s).sMark = s.sMark
    ∧ (pushLoop n s).eMark = s.eMark
    ∧ (pushLoop n s).mline = s.mline
    ∧ (pushLoop n s).end_buf = s.end_buf
    ∧ (pushLoop n s).eof_read = s.eof_read
    ∧ (pushLoop n s).been_called = s.been_called
    ∧ (pushLoop n s).source = s.source
    ∧ (pushLoop n s).termchar = s.termchar
    ∧ (pushLoop n s).pMark = s.pMark := by
  induction n generalizing s with
  | zero =>
    simp [pushLoop, countNZ]
  | succ n ih =>
    by_cases hlt : s.sMark < s.next
    · have hstep : pushLoop (n + 1) s = pushLoop n (pushStep s) := by
        simp [pushLoop, hlt]
      have hnx : (pushStep s).next = s.next - 1 := rfl
      have hrec := ih (pushStep s) (by simp [pushStep]; omega)
      rw [hstep]
      obtain ⟨h1, h2, h3, h4, h5, h6, h7, h8, h9, h10, h11, h12⟩ := hrec
      rw [hnx] at h1
      have hbuf : (pushStep s).buf = s.buf := rfl
      have hsm : (pushStep s).sMark = s.sMark := rfl
      rw [hbuf] at h3
      rw [hsm] at h4
      refine ⟨by rw [h1]; omega, ?_,
        h3, h4, h5, h6, h7, h8, h9, h10, h11, h12⟩
      have hle : (pushLoop n (pushStep s)).next ≤ s.next - 1 := by rw [h1]; omega
      have harg : s.next - (pushLoop n (pushStep s)).next
          = ((s.next - 1) - (pushLoop n (pushStep s)).next) + 1 := by omega
      have hsplit : countNZ s.buf (pushLoop n (pushStep s)).next
            (s.next - (pushLoop n (pushStep s)).next)
          = countNZ s.buf (pushLoop n (pushStep s)).next
              ((s.next - 1) - (pushLoop n (pushStep s)).next)
            + (if s.buf.getD (s.next - 1) 0 = 10 ∨ s.buf.getD (s.next - 1) 0 = 0 then 1
               else 0) := by
        rw [countNZ, countNZ, harg, List.range'_concat, List.countP_append]
        have hpos : (pushLoop n (pushStep s)).next
            + 1 * ((s.next - 1) - (pushLoop n (pushStep s)).next) = s.next - 1 := by
          omega
        rw [hpos]
        by_cases hby : s.buf.getD (s.next - 1) 0 = 10 ∨ s.buf.getD (s.next - 1) 0 = 0
        · simp only [List.getD_eq_getElem?_getD] at hby ⊢
          simp [hby]
        · simp only [List.getD_eq_getElem?_getD] at hby ⊢
          simp [hby]
      have hln : (pushStep s).lineno =
          if s.buf.getD (s.next - 1) 0 = 10 ∨ s.buf.getD (s.next - 1) 0 = 0 then
            s.lineno - 1
          else s.lineno := rfl
      rw [hln, hbuf, hnx] at h2
      rw [hsplit, h2]
      by_cases hby : s.buf.getD (s.next - 1) 0 = 10 ∨ s.buf.getD (s.next - 1) 0 = 0
      · rw [if_pos hby, if_pos hby]
        push_cast
        ring
      · rw [if_neg hby, if_neg hby]
        push_cast
        ring
    · have hstop : pushLoop (n + 1) s = s := by
        simp [pushLoop, hlt]
      have hnext : s.next = s.sMark := by omega
      rw [hstop]
      simp [countNZ, hnext]

/-- Conclusion of claim C7: what one call of ii_pusback does. -/
def c7Prop (n : Nat) (s : IIState) : Prop :=
  (ii_pusback n s).2.next = s.next - min n (s.next - s.sMark)
  ∧ s.sMark ≤ (ii_pusback n s).2.next
  ∧ (ii_pusback n s).2.lineno
      = s.lineno - (countNZ s.buf (ii_pusback n s).2.next
          (s.next - (ii_pusback n s).2.next) : Int)
  ∧ (ii_pusback n s).2.buf = s.buf
  ∧ ((ii_pusback n s).2.next < s.eMark →
      (ii_pusback n s).2.eMark = (ii_pusback n s).2.next
      ∧ (ii_pusback n s).2.mline = (ii_pusback n s).2.lineno)
  ∧ (s.eMark ≤ (ii_pusback n s).2.next →
      (ii_pusback n s).2.eMark = s.eMark ∧ (ii_pusback n s).2.mline = s.mline)
  ∧ ((ii_pusback n s).1 = true ↔ s.sMark < (ii_pusback n s).2.next)

/-- Claim C7: for every state with sMark at or left of Next and every n,
ii_pusback moves the cursor back by min n (Next - sMark) and never past
sMark, decrements Lineno once per crossed byte equal to newline or zero,
pulls eMark and Mline back to the new cursor when the cursor ended up left
of eMark, and returns true exactly when the cursor stays strictly right of
sMark. -/
theorem c7_pushback_behaviour (n : Nat) (s : IIState) (h : s.sMark ≤ s.next) :
    c7Prop n s := by
  obtain ⟨h1, h2, h3, h4, h5, h6, h7, h8, h9, h10, h11, h12⟩ := pushLoop_spec n s h
  unfold c7Prop ii_pusback
  by_cases hE : (pushLoop n s).next < (pushLoop n s).eMark
  · simp only [hE, if_true, if_pos]
    refine ⟨h1, by rw [h1]; omega, h2, h3, ?_, ?_, ?_⟩
    · intro _
      simp
    · intro hcon
      rw [h5] at hE
      omega
    · simp [h4]
  · simp only [hE, if_false, if_neg]
    refine ⟨h1, by rw [h1]; omega, h2, h3, ?_, ?_, ?_⟩
    · intro hcon
      rw [h5] at hE
      omega
    · intro _
      exact ⟨h5, h6⟩
    · simp [h4]

/-- Concrete state used to witness claim C7. -/
def c7state : IIState :=
  { initState [] with
    been_called := true
    sMark := 0
    eMark := 3
    next := 5
    end_buf := 10
    buf := [10, 0, 65, 66, 10, 67] }

/-- Witness for claim C7 at a concrete state and n = 3. -/
theorem c7_pushback_behaviour_witness :
    c7state.sMark ≤ c7state.next ∧ c7Prop 3 c7state :=
  ⟨by decide, c7_pushback_behaviour 3 c7state (by decide)⟩

/-- Conclusion of claim C9: ii_term writes a zero byte at Next, ii_unterm
after ii_term restores the byte at Next and clears the saved byte, and
ii_unterm with nothing saved changes nothing. -/
def c9Prop (s : IIState) : Prop :=
  ((ii_term s).buf.getD s.next 0 = 0)
  ∧ ((ii_unterm (ii_term s)).buf.getD s.next 0 = s.buf.getD s.next 0)
  ∧ ((ii_unterm (ii_term s)).termchar = 0)
  ∧ (s.termchar = 0 → ii_unterm s = s)

/-- Claim C9: after ii_term the byte at Next reads as zero; a following
ii_unterm restores the byte at Next to its value before ii_term and clears
the saved state; ii_unterm with nothing saved is the identity.  This holds
for every original byte value at Next, including zero, because a zero byte
saved into Termchar makes the following ii_unterm the identity, which is
already the restoring map in that case. -/
theorem c9_term_unterm (s : IIState) (h : s.next < s.buf.length) : c9Prop s := by
  have hlen : (s.buf.set s.next 0).length = s.buf.length := List.length_set s.buf s.next 0
  have hterm_buf : (ii_term s).buf = s.buf.set s.next 0 := rfl
  have hterm_tc : (ii_term s).termchar = s.buf.getD s.next 0 := rfl
  have hterm_next : (ii_term s).next = s.next := rfl
  have hnoop : s.termchar = 0 → ii_unterm s = s := by
    intro h0
    have hc : ¬ (s.termchar ≠ 0) := fun hcon => hcon h0
    unfold ii_unterm
    rw [if_neg hc]
  by_cases hb : s.buf.getD s.next 0 = 0
  · have hc : ¬ ((ii_term s).termchar ≠ 0) := by
      rw [hterm_tc]
      exact fun hcon => hcon hb
    have hid : ii_unterm (ii_term s) = ii_term s := by
      unfold ii_unterm
      rw [if_neg hc]
    refine ⟨?_, ?_, ?_, hnoop⟩
    · rw [hterm_buf]
      exact getD_set_self s.buf s.next 0 h
    · rw [hid, hterm_buf, getD_set_self s.buf s.next 0 h, hb]
    · rw [hid, hterm_tc, hb]
  · have hc : (ii_term s).termchar ≠ 0 := by
      rw [hterm_tc]
      exact hb
    have hstep : ii_unterm (ii_term s)
        = { ii_term s with
            buf := (ii_term s).buf.set (ii_term s).next (ii_term s).termchar
            termchar := 0 } := by
      unfold ii_unterm
      rw [if_pos hc]
    refine ⟨?_, ?_, ?_, hnoop⟩
    · rw [hterm_buf]
      exact getD_set_self s.buf s.next 0 h
    · rw [hstep]
      show ((ii_term s).buf.set (ii_term s).next (ii_term s).termchar).getD s.next 0
          = s.buf.getD s.next 0
      rw [hterm_buf, hterm_next, hterm_tc]
      exact getD_set_self _ s.next _ (by rw [hlen]; exact h)
    · rw [hstep]

/-- Concrete state used to witness claim C9. -/
def c9state : IIState :=
  { initState [] with next := 0, buf := [7] }

/-- Witness for claim C9 at a concrete state whose cursor byte is 7. -/
theorem c9_term_unterm_witness :
    c9state.next < c9state.buf.length ∧ c9Prop c9state :=
  ⟨by decide, c9_term_unterm c9state (by decide)⟩

/-- Claim C2: the code contradicts the specified recoverable end-of-input
channel.  On an empty stream the very first ii_advance runs a flush whose
refill reads zero bytes; ii_fillbuf sets Eof_read and returns 0, and
ii_flush then takes the fatal ferr path instead of letting the sentinel be
delivered.  The result is Except.error, the embedded process abort. -/
theorem c2_eof_during_refill_is_fatal :
    (ii_advance (initState [])).toOption = none := by decide

/-- Claim C6: on the stream ab, newline, cd the successive ii_advance calls
return 10 and then -1 forever, not the specified 10, 97, 98, 10, 99, 100
and then the end-of-input sentinel.  After the first refill End_buf sits at
offset 6, so Next = 1 is inside the danger zone End_buf - MAXLOOK and the
non-forced flush refuses because sMark = 0 is nearer than MAXLEN to the
origin; ii_advance therefore reports -1, the flush-failure code, on every
later call. -/
theorem c6_small_stream_trace :
    (advances 7 (initState [97, 98, 10, 99, 100])).toOption.map Prod.fst
      = some [10, -1, -1, -1, -1, -1, -1] := by decide

/-- Concrete pre-switch state used against claim C3: a previous mark and a
saved terminator byte are live when ii_newfile succeeds. -/
def c3state : IIState :=
  { initState [] with pMark := some 5, pLineno := 4, pLength := 2, termchar := 7 }

/-- Counterexample to claim C3: after a successful ii_newfile the
previous-lexeme mark and the saved terminator byte are still present, so
the switch does not clear them as the claim states. -/
theorem c3_newfile_keeps_pmark_and_terminator :
    ¬ ((ii_newfile (some [65]) c3state).pMark = none
        ∧ (ii_newfile (some [65]) c3state).termchar = 0) := by decide

/-- Claim C3 (amended): a successful ii_newfile resets Lineno and Mline to
1, Cursor, both lexeme marks and ValidExtent to the degenerate position
END, and Eof_read to false, and installs the new stream; the
previous-lexeme mark with its snapshots, the saved terminator byte, the
seeding flag and the buffer contents are all left untouched. -/
theorem c3_newfile_resets (s : IIState) (src : List Nat) :
    (ii_newfile (some src) s).lineno = 1
    ∧ (ii_newfile (some src) s).mline = 1
    ∧ (ii_newfile (some src) s).next = BUFSIZE
    ∧ (ii_newfile (some src) s).sMark = BUFSIZE
    ∧ (ii_newfile (some src) s).eMark = BUFSIZE
    ∧ (ii_newfile (some src) s).end_buf = BUFSIZE
    ∧ (ii_newfile (some src) s).eof_read = false
    ∧ (ii_newfile (some src) s).source = src
    ∧ (ii_newfile (some src) s).pMark = s.pMark
    ∧ (ii_newfile (some src) s).pLineno = s.pLineno
    ∧ (ii_newfile (some src) s).pLength = s.pLength
    ∧ (ii_newfile (some src) s).termchar = s.termchar
    ∧ (ii_newfile (some src) s).been_called = s.been_called
    ∧ (ii_newfile (some src) s).buf = s.buf
    ∧ (ii_newfile none s) = s := by
  simp [ii_newfile]

/-- Counterexample to claim C5: after one ii_advance on the stream ab,
newline, cd, the state is not at end of input and the cursor byte is
buffered, ii_look 1 returns byte 97, yet the next ii_advance returns the
flush-failure code -1, because End_buf = 6 puts the cursor in the danger
zone and sMark = 0 makes the opportunistic non-forced flush refuse. -/
theorem c5_look_disagrees_with_advance :
    (afterAdvances 1 [97, 98, 10, 99, 100]).eof_read = false
    ∧ (afterAdvances 1 [97, 98, 10, 99, 100]).next
        < (afterAdvances 1 [97, 98, 10, 99, 100]).end_buf
    ∧ (ii_look 1 (afterAdvances 1 [97, 98, 10, 99, 100])).1 = 97
    ∧ (ii_advance (afterAdvances 1 [97, 98, 10, 99, 100])).toOption.map Prod.fst
        = some (-1) := by decide

/-- Concrete end-of-input state used against claim C8. -/
def c8state : IIState :=
  { initState [] with been_called := true, eof_read := true }

/-- Counterexample to claim C8: at end of input ii_advance returns 0, a
value inside [0, 255] and identical to the no-data sentinel, while ii_look
returns -1; the two end-of-input sentinels are therefore not the same
value, and the one of ii_advance is not out of band. -/
theorem c8_eof_sentinels_differ :
    (ii_advance c8state).toOption.map Prod.fst = some 0
    ∧ (ii_look 1 c8state).1 = -1 := by decide

/-- Counterexample to claim C4: stream consisting of a zero byte and
sixteen bytes 65.  The first two advances return the synthetic newline
10 and the zero byte, leaving Lineno = 1.  Pushing the zero byte back and
advancing again reproduces the byte value 0, but the state afterwards has
Lineno = 0, because ii_pusback decrements Lineno on zero bytes while
ii_advance never increments for them. -/
theorem c4_zero_byte_drops_lineno :
    (advances 2 (initState (0 :: List.replicate 16 65))).toOption.map Prod.fst
      = some [10, 0]
    ∧ (afterAdvances 2 (0 :: List.replicate 16 65)).lineno = 1
    ∧ (ii_advance ((ii_pusback 1 (afterAdvances 2 (0 :: List.replicate 16 65))).2)).toOption.map
        (fun p => (p.1, p.2.lineno)) = some (0, 0) := by decide

/-- Concrete run used against claim C10: advance once on a first stream,
take ii_mark_prev (pMark becomes 0 after the rebase of the first flush),
then switch streams. -/
def c10state : IIState :=
  ii_newfile (some [65, 66]) (ii_mark_prev (afterAdvances 1 (0 :: List.replicate 16 65)))

/-- Counterexample to claim C10: after a successful switch to the stream
65, 66, the first ii_advance does not return the first real byte 65; the
stale previous-lexeme mark 0 survives ii_newfile, forces the non-forced
flush inside ii_advance to refuse, and ii_advance reports -1. -/
theorem c10_stale_pmark_blocks_first_advance :
    (ii_mark_prev (afterAdvances 1 (0 :: List.replicate 16 65))).pMark = some 0
    ∧ (ii_advance c10state).toOption.map Prod.fst = some (-1) := by decide

/-- One ii_advance on a seeded state whose cursor sits strictly below the
danger zone: the flush does nothing, the byte at Next comes back, Next
steps by one, and Lineno grows by one exactly on a newline byte. -/
theorem ii_advance_noflush (s : IIState) (hb : s.been_called = true)
    (hpos : s.next + MAXLOOK < s.end_buf) :
    ii_advance s = .ok ((s.buf.getD s.next 0 : Int),
      { s with
        next := s.next + 1
        lineno := s.lineno + (if s.buf.getD s.next 0 = 10 then 1 else 0) }) := by
  have hpos16 : s.next + 16 < s.end_buf := hpos
  have hnm : noMoreChars s = false := by
    unfold noMoreChars
    have hd : decide (s.end_buf ≤ s.next) = false := by
      apply decide_eq_false
      omega
    rw [hd, Bool.and_false]
  have hstepped : (if s.eof_read then Except.ok ((1 : Int), s) else ii_flush false s)
      = .ok (1, s) := by
    by_cases heof : s.eof_read
    · rw [if_pos heof]
    · rw [if_neg heof]
      have heof2 : s.eof_read = false := by
        simpa using heof
      have hdang : ¬ (s.end_buf - MAXLOOK ≤ s.next ∨ false = true) := by
        intro hco
        rcases hco with hco | hco
        · have hco16 : s.end_buf - 16 ≤ s.next := hco
          omega
        · simp at hco
      unfold ii_flush
      rw [hnm, heof2]
      rw [if_neg (by simp), if_neg (by simp), if_neg hdang]
  unfold ii_advance
  rw [hb]
  simp only [if_true]
  rw [hnm]
  rw [if_neg (by simp)]
  rw [hstepped]
  have h10 : ¬ ((1 : Int) < 0) := by norm_num
  simp only [h10, if_false]
  by_cases hc : s.buf.getD s.next 0 = 10
  · simp only [hc, if_pos, if_true]
    rw [hb]
  · simp only [hc, if_neg, if_false]
    simp [hb]

/-- Running k advances below the danger zone returns exactly the window of
k buffered bytes at the cursor and moves Next and Lineno accordingly,
leaving everything else unchanged. -/
theorem advances_noflush (k : Nat) (s : IIState) (hb : s.been_called = true)
    (hwin : s.next + k + MAXLOOK ≤ s.end_buf) :
    advances k s = .ok ((window s k).map (fun b => (b : Int)),
      { s with
        next := s.next + k
        lineno := s.lineno + ((window s k).countP (fun b => decide (b = 10)) : Int) }) := by
  induction k generalizing s with
  | zero =>
    simp [advances, window]
  | succ k ih =>
    have hwin16 : s.next + (k + 1) + 16 ≤ s.end_buf := hwin
    set t : IIState := { s with
        next := s.next + 1
        lineno := s.lineno + (if s.buf.getD s.next 0 = 10 then 1 else 0) } with ht
    have hstep : ii_advance s = .ok ((s.buf.getD s.next 0 : Int), t) :=
      ii_advance_noflush s hb (by
        show s.next + 16 < s.end_buf
        omega)
    have hbt : t.been_called = true := hb
    have hwt : t.next + k + MAXLOOK ≤ t.end_buf := by
      show s.next + 1 + k + 16 ≤ s.end_buf
      omega
    have hrec := ih t hbt hwt
    have hsucc : advances (k + 1) s = match ii_advance s with
      | Except.error e => Except.error e
      | Except.ok (v, s1) =>
        match advances k s1 with
        | Except.error e => Except.error e
        | Except.ok (vs, s2) => Except.ok (v :: vs, s2) := rfl
    rw [hsucc, hstep]
    show (match advances k t with
      | Except.error e => Except.error e
      | Except.ok (vs, s2) => Except.ok ((s.buf.getD s.next 0 : Int) :: vs, s2)) = _
    rw [hrec]
    show Except.ok ((s.buf.getD s.next 0 : Int) :: (window t k).map (fun b => (b : Int)),
        { t with
          next := t.next + k
          lineno := t.lineno + ((window t k).countP (fun b => decide (b = 10)) : Int) }) = _
    have hwindow : window s (k + 1) = s.buf.getD s.next 0 :: window t k := by
      unfold window
      rw [List.range'_succ]
      rfl
    rw [hwindow]
    simp only [List.map_cons, List.countP_cons, Except.ok.injEq, Prod.mk.injEq]
    refine ⟨rfl, ?_⟩
    generalize List.countP (fun b => decide (b = 10)) (window t k) = C
    simp only [ht, IIState.mk.injEq, and_true, true_and]
    constructor
    · omega
    by_cases hc : s.buf.getD s.next 0 = 10
    · simp only [hc, if_true]
      norm_num
      try push_cast
      try ring
    · simp only [hc, if_false]
      norm_num [hc]
      try push_cast
      try ring

/-- Conclusion of claim C4 (amended): after any k advances, pushing k back
and advancing k times again reproduces exactly the same k returned values
and ends with the same Lineno as before the pushback. -/
def c4Prop (k : Nat) (s0 : IIState) : Prop :=
  ∀ vals s1, advances k s0 = .ok (vals, s1) →
    ∃ s3, advances k (ii_pusback k s1).2 = .ok (vals, s3) ∧ s3.lineno = s1.lineno

/-- Claim C4 (amended): for a seeded state with sMark at or left of the
cursor, a window of k bytes that stays strictly below the danger zone
(so the replay never triggers a compaction) and contains no zero byte,
k advances followed by ii_pusback k followed by k advances return the
same value sequence and restore Lineno.  The zero-byte restriction is
forced by the counterexample below: ii_pusback decrements Lineno on zero
bytes that ii_advance never counted. -/
theorem c4_pushback_replay (k : Nat) (s0 : IIState)
    (hb : s0.been_called = true)
    (hsm : s0.sMark ≤ s0.next)
    (hwin : s0.next + k + MAXLOOK ≤ s0.end_buf)
    (hz : ∀ i ∈ List.range' s0.next k, s0.buf.getD i 0 ≠ 0) :
    c4Prop k s0 := by
  intro vals s1 heq
  rw [advances_noflush k s0 hb hwin] at heq
  simp only [Except.ok.injEq, Prod.mk.injEq] at heq
  obtain ⟨hv1, hv2⟩ := heq
  subst hv1
  subst hv2
  set T : IIState := { s0 with
    next := s0.next + k
    lineno := s0.lineno
      + ((window s0 k).countP (fun b => decide (b = 10)) : Int) } with hT
  have hTn : T.next = s0.next + k := rfl
  have hTs : T.sMark = s0.sMark := rfl
  have hTb : T.buf = s0.buf := rfl
  have hTe : T.end_buf = s0.end_buf := rfl
  have hTbc : T.been_called = true := hb
  have hTl : T.lineno = s0.lineno
      + ((window s0 k).countP (fun b => decide (b = 10)) : Int) := rfl
  have hsmT : T.sMark ≤ T.next := by
    rw [hTn, hTs]
    omega
  obtain ⟨p1, p2, p3, p4, p5, p6, p7, p8, p9, p10, p11, p12⟩ := pushLoop_spec k T hsmT
  rw [hTn, hTs] at p1
  have hSnext : (pushLoop k T).next = s0.next := by omega
  have hcnt : countNZ s0.buf s0.next k
      = (window s0 k).countP (fun b => decide (b = 10)) := by
    unfold countNZ window
    rw [List.countP_map]
    apply List.countP_congr
    intro i hi
    have hzi := hz i hi
    simp only [Function.comp_apply, decide_eq_true_eq]
    constructor
    · intro hco
      rcases hco with hco | hco
      · exact hco
      · exact absurd hco hzi
    · intro hco
      exact Or.inl hco
  have hkk : s0.next + k - s0.next = k := by omega
  rw [hTb, hTl, hSnext, hTn, hkk, hcnt] at p2
  have hSl : (pushLoop k T).lineno = s0.lineno := by omega
  have hpb : (ii_pusback k T).2
      = if (pushLoop k T).next < (pushLoop k T).eMark then
          { pushLoop k T with
            eMark := (pushLoop k T).next
            mline := (pushLoop k T).lineno }
        else pushLoop k T := rfl
  rw [hpb]
  by_cases hE : (pushLoop k T).next < (pushLoop k T).eMark
  · rw [if_pos hE]
    have hb2 : ({ pushLoop k T with
        eMark := (pushLoop k T).next
        mline := (pushLoop k T).lineno } : IIState).been_called = true := by
      show (pushLoop k T).been_called = true
      rw [p9]
      exact hTbc
    have hw2 : ({ pushLoop k T with
        eMark := (pushLoop k T).next
        mline := (pushLoop k T).lineno } : IIState).next + k + MAXLOOK
        ≤ ({ pushLoop k T with
            eMark := (pushLoop k T).next
            mline := (pushLoop k T).lineno } : IIState).end_buf := by
      show (pushLoop k T).next + k + MAXLOOK ≤ (pushLoop k T).end_buf
      rw [hSnext, p7, hTe]
      exact hwin
    have hadv := advances_noflush k _ hb2 hw2
    have hwequal : window ({ pushLoop k T with
        eMark := (pushLoop k T).next
        mline := (pushLoop k T).lineno } : IIState) k = window s0 k := by
      unfold window
      rw [show ({ pushLoop k T with
          eMark := (pushLoop k T).next
          mline := (pushLoop k T).lineno } : IIState).next = (pushLoop k T).next from rfl,
        show ({ pushLoop k T with
          eMark := (pushLoop k T).next
          mline := (pushLoop k T).lineno } : IIState).buf = (pushLoop k T).buf from rfl,
        hSnext, p3, hTb]
    rw [hwequal] at hadv
    refine ⟨_, hadv, ?_⟩
    show ({ pushLoop k T with
        eMark := (pushLoop k T).next
        mline := (pushLoop k T).lineno } : IIState).lineno
        + ((window s0 k).countP (fun b => decide (b = 10)) : Int) = T.lineno
    rw [show ({ pushLoop k T with
        eMark := (pushLoop k T).next
        mline := (pushLoop k T).lineno } : IIState).lineno = (pushLoop k T).lineno from rfl,
      hSl, hTl]
  · rw [if_neg hE]
    have hb2 : (pushLoop k T).been_called = true := by
      rw [p9]
      exact hTbc
    have hw2 : (pushLoop k T).next + k + MAXLOOK ≤ (pushLoop k T).end_buf := by
      rw [hSnext, p7, hTe]
      exact hwin
    have hadv := advances_noflush k _ hb2 hw2
    have hwequal : window (pushLoop k T) k = window s0 k := by
      unfold window
      rw [hSnext, p3, hTb]
    rw [hwequal] at hadv
    refine ⟨_, hadv, ?_⟩
    show (pushLoop k T).lineno
        + ((window s0 k).countP (fun b => decide (b = 10)) : Int) = T.lineno
    rw [hSl, hTl]

/-- Concrete state used to witness claim C4 (amended). -/
def c4state : IIState :=
  { initState [] with
    been_called := true
    next := 0
    sMark := 0
    eMark := 0
    end_buf := 100
    buf := [65, 10, 66] ++ List.replicate 97 1 }

/-- Witness for claim C4 (amended) at a concrete state and k = 3. -/
theorem c4_pushback_replay_witness :
    c4state.been_called = true
    ∧ c4state.sMark ≤ c4state.next
    ∧ c4state.next + 3 + MAXLOOK ≤ c4state.end_buf
    ∧ (∀ i ∈ List.range' c4state.next 3, c4state.buf.getD i 0 ≠ 0)
    ∧ c4Prop 3 c4state :=
  ⟨by decide, by decide, by decide, by decide,
    c4_pushback_replay 3 c4state (by decide) (by decide) (by decide) (by decide)⟩

/-- Conclusion of claim C10 (amended): after a stream switch with no stale
previous-lexeme mark, the first advance of the new stream delivers the
first source byte with no synthetic newline and no Lineno compensation. -/
def c10Prop (s : IIState) (a : Nat) (t : List Nat) : Prop :=
  (ii_newfile (some (a :: t)) s).been_called = s.been_called
  ∧ (ii_newfile (some (a :: t)) s).lineno = 1
  ∧ (ii_advance (ii_newfile (some (a :: t)) s)).toOption.map Prod.fst = some (a : Int)
  ∧ (ii_advance (ii_newfile (some (a :: t)) s)).toOption.map (fun p => p.2.next) = some 1
  ∧ (ii_advance (ii_newfile (some (a :: t)) s)).toOption.map (fun p => p.2.been_called)
      = some true
  ∧ (ii_advance (ii_newfile (some (a :: t)) s)).toOption.map (fun p => p.2.lineno)
      = some (1 + (if a = 10 then 1 else 0))

/-- Claim C10 (amended): the synthetic newline is seeded at most once per
process; ii_newfile leaves the seeding flag alone, and when the switched-to
stream is nonempty and no stale previous-lexeme mark survives from the old
stream, the first ii_advance of the new stream returns the first real byte
of the stream, not a synthetic newline, without any compensating Lineno
decrement, so the new stream starts on line 1.  The no-stale-pMark
hypothesis is forced by the counterexample above. -/
theorem c10_single_seed (s : IIState) (a : Nat) (t : List Nat)
    (hb : s.been_called = true) (hp : s.pMark = none) : c10Prop s a t := by
  obtain ⟨bu, eb, nx, sm, em, pm, pli, ple, lin, mli, tch, eo, bc, src⟩ := s
  have hb2 : bc = true := hb
  have hp2 : pm = none := hp
  subst hb2
  subst hp2
  have hne : ¬ (min 3072 (t.length + 1) = 0) := by omega
  obtain ⟨m, hm⟩ : ∃ m, min 3072 (t.length + 1) = m + 1 :=
    ⟨min 3072 (t.length + 1) - 1, by omega⟩
  unfold c10Prop
  by_cases ha : a = 10
  · simp [ii_newfile, ii_advance, ii_flush, ii_fillbuf, noMoreChars, leftEdgeOf,
      MAXLOOK, MAXLEN, BUFSIZE, hm, ha, List.take_succ_cons]
    simp [Except.toOption]
    aesop
  · simp [ii_newfile, ii_advance, ii_flush, ii_fillbuf, noMoreChars, leftEdgeOf,
      MAXLOOK, MAXLEN, BUFSIZE, hm, ha, List.take_succ_cons]
    simp [Except.toOption]
    aesop

/-- Concrete state used to witness claim C10 (amended). -/
def c10wstate : IIState :=
  { initState [] with been_called := true }

/-- Witness for claim C10 (amended) at a concrete prior state and the new
stream 65, 66. -/
theorem c10_single_seed_witness :
    c10wstate.been_called = true ∧ c10wstate.pMark = none ∧ c10Prop c10wstate 65 [66] :=
  ⟨by decide, by decide, c10_single_seed c10wstate 65 [66] (by decide) (by decide)⟩

/-- One ii_advance on a seeded state whose cursor byte is buffered and
that is quiet, meaning the opportunistic flush does nothing: either the
end of file was already read, or the cursor is strictly below the danger
zone. -/
theorem ii_advance_quiet (s : IIState) (hb : s.been_called = true)
    (h2 : s.next < s.end_buf)
    (h3 : s.eof_read = true ∨ s.next + MAXLOOK < s.end_buf) :
    ii_advance s = .ok ((s.buf.getD s.next 0 : Int),
      { s with
        next := s.next + 1
        lineno := s.lineno + (if s.buf.getD s.next 0 = 10 then 1 else 0) }) := by
  rcases h3 with heof | hpos
  · have hnm : noMoreChars s = false := by
      unfold noMoreChars
      have hd : decide (s.end_buf ≤ s.next) = false := decide_eq_false (by omega)
      rw [hd, Bool.and_false]
    unfold ii_advance
    rw [hb]
    simp only [if_true]
    rw [hnm]
    rw [if_neg (by simp)]
    rw [if_pos heof]
    have h10 : ¬ ((1 : Int) < 0) := by norm_num
    simp only [h10, if_false]
    by_cases hc : s.buf.getD s.next 0 = 10
    · simp only [hc, if_pos, if_true]
      rw [hb]
    · simp only [hc, if_neg, if_false]
      simp [hb]
  · exact ii_advance_noflush s hb hpos

/-- Conclusion of claim C5 (amended): ii_look 1 against the next
ii_advance. -/
def c5Prop (s : IIState) : Prop :=
  ((s.eof_read = true ∧ s.end_buf ≤ s.next) → (ii_look 1 s).1 = -1)
  ∧ (ii_look 1 s).2 = s
  ∧ (s.next < s.end_buf → (s.eof_read = true ∨ s.next + MAXLOOK < s.end_buf) →
      ((ii_look 1 s).1 = (s.buf.getD s.next 0 : Int)
       ∧ (ii_advance s).toOption.map Prod.fst = some (s.buf.getD s.next 0 : Int)))

/-- Claim C5 (amended): on a seeded state, ii_look 1 at true end of input
(Eof_read and Next at or past End_buf) returns the end-of-input sentinel
-1; ii_look never changes the state; and at a position whose byte is
buffered and where the opportunistic non-forced flush inside ii_advance
does nothing (end of file already read, or cursor strictly below the
danger zone), ii_look 1 returns exactly the byte value that the next
ii_advance returns.  The quiet-flush hypothesis is forced by the
counterexample above, where a refused flush makes ii_advance report -1
while ii_look 1 sees the buffered byte. -/
theorem c5_look_matches_quiet_advance (s : IIState) (hb : s.been_called = true) :
    c5Prop s := by
  refine ⟨?_, ?_, ?_⟩
  · intro ⟨he, hge⟩
    unfold ii_look
    rw [if_pos ⟨he, by push_cast; omega⟩]
  · show (if s.eof_read = true ∧ (s.end_buf : Int) ≤ (s.next : Int) + (1 - 1) then
        ((-1 : Int), s)
      else if ((s.next : Int) + (1 - 1)) < 0 ∨ (s.end_buf : Int) ≤ (s.next : Int) + (1 - 1)
        then ((0 : Int), s)
      else ((s.buf.getD ((s.next : Int) + (1 - 1)).toNat 0 : Int), s)).2 = s
    split
    · rfl
    · split
      · rfl
      · rfl
  · intro h2 h3
    constructor
    · unfold ii_look
      rw [if_neg ?hc1, if_neg ?hc2]
      case hc1 =>
        intro ⟨_, hge⟩
        have : ((s.next : Int) + (1 - 1)) = (s.next : Int) := by ring
        rw [this] at hge
        have := Int.le_of_lt (show (s.next : Int) < s.end_buf by exact_mod_cast h2)
        omega
      case hc2 =>
        intro hco
        rcases hco with hco | hco
        · have : ((s.next : Int) + (1 - 1)) = (s.next : Int) := by ring
          rw [this] at hco
          omega
        · have : ((s.next : Int) + (1 - 1)) = (s.next : Int) := by ring
          rw [this] at hco
          have : (s.next : Int) < s.end_buf := by exact_mod_cast h2
          omega
      have harg : ((s.next : Int) + (1 - 1)).toNat = s.next := by
        have : ((s.next : Int) + (1 - 1)) = (s.next : Int) := by ring
        rw [this]
        exact Int.toNat_natCast s.next
      rw [harg]
    · rw [ii_advance_quiet s hb h2 h3]
      rfl

/-- Concrete state used to witness claim C5 (amended). -/
def c5wstate : IIState :=
  { initState [] with been_called := true, next := 0, end_buf := 20 }

/-- Witness for claim C5 (amended) at a concrete quiet state. -/
theorem c5_look_matches_quiet_advance_witness :
    c5wstate.been_called = true ∧ c5Prop c5wstate :=
  ⟨by decide, c5_look_matches_quiet_advance c5wstate (by decide)⟩

/-- Reading inside the copied region of a compacted buffer: after the
memcpy of the surviving region [L, L + copy) to the origin and a refill of
got bytes behind it, the byte at rebased offset i - L is the original byte
at offset i. -/
theorem shifted_getD (buf src : List Nat) (L copy got : Nat)
    (hlen : buf.length = BUFSIZE) (hcopylen : L + copy ≤ BUFSIZE)
    (i : Nat) (hLi : L ≤ i) (hi : i - L < copy) :
    (((buf.drop L).take copy ++ buf.drop copy).take copy
        ++ src.take got
        ++ ((buf.drop L).take copy ++ buf.drop copy).drop (copy + got)).getD (i - L) 0
      = buf.getD i 0 := by
  have h1 : ((buf.drop L).take copy).length = copy := by
    rw [List.length_take, List.length_drop, hlen]
    omega
  have h2 : ((buf.drop L).take copy ++ buf.drop copy).length
      = copy + (BUFSIZE - copy) := by
    rw [List.length_append, h1, List.length_drop, hlen]
  have h3 : ((((buf.drop L).take copy ++ buf.drop copy).take copy)).length = copy := by
    rw [List.length_take, h2]
    omega
  have h4 : ((((buf.drop L).take copy ++ buf.drop copy).take copy) ++ src.take got).length
      = copy + (src.take got).length := by
    rw [List.length_append, h3]
  rw [getD_append_left _ _ _ (by rw [h4]; omega)]
  rw [getD_append_left _ _ _ (by rw [h3]; exact hi)]
  rw [getD_take_lt _ _ _ hi]
  rw [getD_append_left _ _ _ (by rw [h1]; exact hi)]
  rw [getD_take_lt _ _ _ hi]
  rw [getD_drop_add]
  congr 1
  omega

/-- Conclusion of claim C1: behaviour of one ii_flush call.  A refusal
(-1) happens only non-forced and changes nothing; a non-forced flush in
the danger zone whose left edge is nearer than MAXLEN to the origin is
exactly that refusal; on every non-refused return, every byte at or right
of the effective left edge and inside ValidExtent survives at its rebased
offset; and a forced flush that had to sacrifice the saved lexemes resets
sMark, eMark, Next to the rebased cursor 0 and pMark to some 0, so only a
forced flush discards history, and only left of the cursor. -/
def c1Prop (s : IIState) (force : Bool) (r : Int) (s1 : IIState) : Prop :=
  (r = -1 → force = false ∧ s1 = s)
  ∧ (force = false → noMoreChars s = false → s.eof_read = false →
      s.end_buf - MAXLOOK ≤ s.next → leftEdgeOf s < MAXLEN → r = -1 ∧ s1 = s)
  ∧ (¬ r = -1 → ∀ i, flushEdge s ≤ i → i < s.end_buf →
      s1.buf.getD (i - flushShift s force) 0 = s.buf.getD i 0)
  ∧ (force = true → noMoreChars s = false → s.eof_read = false →
      leftEdgeOf s < MAXLEN →
      s1.sMark = 0 ∧ s1.eMark = 0 ∧ s1.next = 0 ∧ s1.pMark = some 0)

/-- Claim C1: on a well-formed state, ii_flush never loses a byte the
marks still protect: a non-forced flush in the danger zone with a left
edge nearer than MAXLEN to the origin refuses with -1 and changes
nothing, every non-refused return keeps each byte at or right of the
effective left edge and inside ValidExtent at its rebased offset, and only
a forced flush discards history left of the cursor, resetting the marks to
the cursor first. -/
theorem c1_flush_preserves (s : IIState) (force : Bool) (r : Int) (s1 : IIState)
    (hlen : s.buf.length = BUFSIZE) (hend : s.end_buf ≤ BUFSIZE)
    (hedge : leftEdgeOf s ≤ s.end_buf) (hnext : s.next ≤ s.end_buf)
    (h : ii_flush force s = .ok (r, s1)) : c1Prop s force r s1 := by
  by_cases hnm : noMoreChars s = true
  · unfold ii_flush at h
    rw [if_pos hnm] at h
    simp only [Except.ok.injEq, Prod.mk.injEq] at h
    obtain ⟨hr, hs⟩ := h
    subst hr
    subst hs
    refine ⟨?_, ?_, ?_, ?_⟩
    · intro h0
      norm_num at h0
    · intro _ hco _ _ _
      rw [hnm] at hco
      exact absurd hco (by simp)
    · intro _ i h1 h2
      have hz : flushShift s force = 0 := by
        unfold flushShift
        rw [if_neg]
        intro ⟨hc, _⟩
        rw [hnm] at hc
        exact absurd hc (by simp)
      rw [hz, Nat.sub_zero]
    · intro _ hco _ _
      rw [hnm] at hco
      exact absurd hco (by simp)
  · have hnm2 : noMoreChars s = false := by simpa using hnm
    by_cases heof : s.eof_read = true
    · unfold ii_flush at h
      rw [hnm2] at h
      rw [if_neg (by simp)] at h
      rw [if_pos heof] at h
      simp only [Except.ok.injEq, Prod.mk.injEq] at h
      obtain ⟨hr, hs⟩ := h
      subst hr
      subst hs
      refine ⟨?_, ?_, ?_, ?_⟩
      · intro h0
        norm_num at h0
      · intro _ _ hco _ _
        rw [heof] at hco
        exact absurd hco (by simp)
      · intro _ i h1 h2
        have hz : flushShift s force = 0 := by
          unfold flushShift
          rw [if_neg]
          intro ⟨_, hc2, _⟩
          rw [heof] at hc2
          exact absurd hc2 (by simp)
        rw [hz, Nat.sub_zero]
      · intro _ _ hco _
        rw [heof] at hco
        exact absurd hco (by simp)
    · have heof2 : s.eof_read = false := by simpa using heof
      by_cases hdg : s.end_buf - MAXLOOK ≤ s.next ∨ force = true
      · by_cases hlm : leftEdgeOf s < MAXLEN
        · by_cases hf : force = true
          · -- forced flush that sacrifices the saved lexemes
            have hnr : ¬ (leftEdgeOf s < MAXLEN ∧ force = false) := by
              intro ⟨_, hco⟩
              rw [hf] at hco
              exact absurd hco (by simp)
            unfold ii_flush at h
            rw [hnm2] at h
            rw [if_neg (by simp)] at h
            rw [heof2] at h
            rw [if_neg (by simp)] at h
            rw [if_pos hdg] at h
            rw [if_neg hnr] at h
            simp only [if_pos hlm, ii_mark_prev, ii_mark_start, ii_fillbuf] at h
            by_cases hneed : ((BUFSIZE - (s.end_buf - s.next)) / MAXLEN) * MAXLEN = 0
            · rw [if_pos hneed] at h
              simp at h
            · rw [if_neg hneed] at h
              by_cases hgot : min (((BUFSIZE - (s.end_buf - s.next)) / MAXLEN) * MAXLEN)
                  s.source.length = 0
              · rw [if_pos hgot] at h
                simp at h
              · rw [if_neg hgot] at h
                simp only [Except.ok.injEq, Prod.mk.injEq] at h
                obtain ⟨hr, hs⟩ := h
                subst hr
                refine ⟨?_, ?_, ?_, ?_⟩
                · intro h0
                  norm_num at h0
                · intro hco _ _ _ _
                  rw [hco] at hf
                  exact absurd hf (by simp)
                · intro _ i h1 h2
                  have hE : flushEdge s = s.next := by
                    unfold flushEdge
                    rw [if_pos hlm]
                  have hz : flushShift s force = s.next := by
                    unfold flushShift
                    rw [if_pos ⟨hnm2, heof2, hdg⟩, hE]
                  rw [hE] at h1
                  rw [hz]
                  rw [← hs]
                  exact shifted_getD s.buf s.source s.next (s.end_buf - s.next)
                    (min (((BUFSIZE - (s.end_buf - s.next)) / MAXLEN) * MAXLEN)
                      s.source.length)
                    hlen (by omega) i h1 (by omega)
                · intro _ _ _ _
                  rw [← hs]
                  refine ⟨by show s.next - s.next = 0; omega,
                    by show s.next - s.next = 0; omega,
                    by show s.next - s.next = 0; omega, ?_⟩
                  show (some s.next).map (fun p => p - s.next) = some 0
                  simp
          · -- non-forced refusal
            have hf2 : force = false := by simpa using hf
            have hdg2 : s.end_buf - MAXLOOK ≤ s.next := by
              rcases hdg with hco | hco
              · exact hco
              · rw [hf2] at hco
                exact absurd hco (by simp)
            unfold ii_flush at h
            rw [hnm2] at h
            rw [if_neg (by simp)] at h
            rw [heof2] at h
            rw [if_neg (by simp)] at h
            rw [if_pos hdg] at h
            rw [if_pos ⟨hlm, hf2⟩] at h
            simp only [Except.ok.injEq, Prod.mk.injEq] at h
            obtain ⟨hr, hs⟩ := h
            subst hr
            subst hs
            refine ⟨?_, ?_, ?_, ?_⟩
            · intro _
              exact ⟨hf2, rfl⟩
            · intro _ _ _ _ _
              exact ⟨rfl, rfl⟩
            · intro h0 _ _ _
              exact absurd rfl h0
            · intro hco _ _ _
              rw [hco] at hf
              exact absurd hf (by simp)
        · -- shifting flush that keeps the marked left edge
          have hnr : ¬ (leftEdgeOf s < MAXLEN ∧ force = false) := by
            intro ⟨hco, _⟩
            exact hlm hco
          unfold ii_flush at h
          rw [hnm2] at h
          rw [if_neg (by simp)] at h
          rw [heof2] at h
          rw [if_neg (by simp)] at h
          rw [if_pos hdg] at h
          rw [if_neg hnr] at h
          simp only [if_neg hlm, ii_fillbuf] at h
          by_cases hneed : ((BUFSIZE - (s.end_buf - leftEdgeOf s)) / MAXLEN) * MAXLEN = 0
          · rw [if_pos hneed] at h
            simp at h
          · rw [if_neg hneed] at h
            by_cases hgot : min (((BUFSIZE - (s.end_buf - leftEdgeOf s)) / MAXLEN) * MAXLEN)
                s.source.length = 0
            · rw [if_pos hgot] at h
              simp at h
            · rw [if_neg hgot] at h
              simp only [Except.ok.injEq, Prod.mk.injEq] at h
              obtain ⟨hr, hs⟩ := h
              subst hr
              refine ⟨?_, ?_, ?_, ?_⟩
              · intro h0
                norm_num at h0
              · intro _ _ _ _ hco
                exact absurd hco hlm
              · intro _ i h1 h2
                have hE : flushEdge s = leftEdgeOf s := by
                  unfold flushEdge
                  rw [if_neg hlm]
                have hz : flushShift s force = leftEdgeOf s := by
                  unfold flushShift
                  rw [if_pos ⟨hnm2, heof2, hdg⟩, hE]
                rw [hE] at h1
                rw [hz]
                rw [← hs]
                exact shifted_getD s.buf s.source (leftEdgeOf s)
                  (s.end_buf - leftEdgeOf s)
                  (min (((BUFSIZE - (s.end_buf - leftEdgeOf s)) / MAXLEN) * MAXLEN)
                    s.source.length)
                  hlen (by omega) i h1 (by omega)
              · intro _ _ _ hco
                exact absurd hco hlm
      · -- neither danger zone nor forced: nothing happens
        unfold ii_flush at h
        rw [hnm2] at h
        rw [if_neg (by simp)] at h
        rw [heof2] at h
        rw [if_neg (by simp)] at h
        rw [if_neg hdg] at h
        simp only [Except.ok.injEq, Prod.mk.injEq] at h
        obtain ⟨hr, hs⟩ := h
        subst hr
        subst hs
        refine ⟨?_, ?_, ?_, ?_⟩
        · intro h0
          norm_num at h0
        · intro _ _ _ hdgg _
          exact absurd (Or.inl hdgg) hdg
        · intro _ i h1 h2
          have hz : flushShift s force = 0 := by
            unfold flushShift
            rw [if_neg]
            intro ⟨_, _, hc3⟩
            exact hdg hc3
          rw [hz, Nat.sub_zero]
        · intro hfo _ _ _
          exact absurd (Or.inr hfo) hdg

/-- Concrete state used to witness claim C1: end of file already read, so
the flush returns 1 and changes nothing. -/
def c1wstate : IIState :=
  { initState [] with eof_read := true, end_buf := 10, next := 5, sMark := 3 }

/-- Witness for claim C1 at a concrete state. -/
theorem c1_flush_preserves_witness :
    (c1wstate.buf.length = BUFSIZE ∧ c1wstate.end_buf ≤ BUFSIZE
      ∧ leftEdgeOf c1wstate ≤ c1wstate.end_buf ∧ c1wstate.next ≤ c1wstate.end_buf
      ∧ ii_flush false c1wstate = .ok (1, c1wstate))
    ∧ c1Prop c1wstate false 1 c1wstate :=
  ⟨⟨by simp [c1wstate, initState], by decide, by decide, by decide, rfl⟩,
    c1_flush_preserves c1wstate false 1 c1wstate
      (by simp [c1wstate, initState]) (by decide) (by decide) (by decide) rfl⟩

/-- Membership in a compacted-and-refilled buffer: every byte of it was a
byte of the old buffer or of the source. -/
theorem mem_shifted (buf src : List Nat) (L copy got : Nat) (b : Nat)
    (hb : b ∈ ((buf.drop L).take copy ++ buf.drop copy).take copy
        ++ src.take got
        ++ ((buf.drop L).take copy ++ buf.drop copy).drop (copy + got)) :
    b ∈ buf ∨ b ∈ src := by
  have hX : ∀ x, x ∈ ((buf.drop L).take copy ++ buf.drop copy) → x ∈ buf := by
    intro x hx
    rcases List.mem_append.mp hx with h1 | h1
    · exact List.drop_subset _ _ (List.take_subset _ _ h1)
    · exact List.drop_subset _ _ h1
  rcases List.mem_append.mp hb with h1 | h1
  · rcases List.mem_append.mp h1 with h2 | h2
    · exact Or.inl (hX b (List.take_subset _ _ h2))
    · exact Or.inr (List.take_subset _ _ h2)
  · exact Or.inl (hX b (List.drop_subset _ _ h1))

/-- Every byte in the buffer after a returning ii_flush came from the old
buffer or from the source stream. -/
theorem ii_flush_buf_from (force : Bool) (s : IIState) (r : Int) (s1 : IIState)
    (h : ii_flush force s = .ok (r, s1)) :
    ∀ b ∈ s1.buf, b ∈ s.buf ∨ b ∈ s.source := by
  intro b hb
  by_cases hnm : noMoreChars s = true
  · unfold ii_flush at h
    rw [if_pos hnm] at h
    simp only [Except.ok.injEq, Prod.mk.injEq] at h
    obtain ⟨_, hs⟩ := h
    subst hs
    exact Or.inl hb
  · have hnm2 : noMoreChars s = false := by simpa using hnm
    by_cases heof : s.eof_read = true
    · unfold ii_flush at h
      rw [hnm2] at h
      rw [if_neg (by simp)] at h
      rw [if_pos heof] at h
      simp only [Except.ok.injEq, Prod.mk.injEq] at h
      obtain ⟨_, hs⟩ := h
      subst hs
      exact Or.inl hb
    · have heof2 : s.eof_read = false := by simpa using heof
      by_cases hdg : s.end_buf - MAXLOOK ≤ s.next ∨ force = true
      · by_cases hlm : leftEdgeOf s < MAXLEN
        · by_cases hf : force = true
          · have hnr : ¬ (leftEdgeOf s < MAXLEN ∧ force = false) := by
              intro ⟨_, hco⟩
              rw [hf] at hco
              exact absurd hco (by simp)
            unfold ii_flush at h
            rw [hnm2] at h
            rw [if_neg (by simp)] at h
            rw [heof2] at h
            rw [if_neg (by simp)] at h
            rw [if_pos hdg] at h
            rw [if_neg hnr] at h
            simp only [if_pos hlm, ii_mark_prev, ii_mark_start, ii_fillbuf] at h
            by_cases hneed : ((BUFSIZE - (s.end_buf - s.next)) / MAXLEN) * MAXLEN = 0
            · rw [if_pos hneed] at h
              simp at h
            · rw [if_neg hneed] at h
              by_cases hgot : min (((BUFSIZE - (s.end_buf - s.next)) / MAXLEN) * MAXLEN)
                  s.source.length = 0
              · rw [if_pos hgot] at h
                simp at h
              · rw [if_neg hgot] at h
                simp only [Except.ok.injEq, Prod.mk.injEq] at h
                obtain ⟨_, hs⟩ := h
                rw [← hs] at hb
                exact mem_shifted s.buf s.source s.next (s.end_buf - s.next)
                  (min (((BUFSIZE - (s.end_buf - s.next)) / MAXLEN) * MAXLEN)
                    s.source.length) b hb
          · have hf2 : force = false := by simpa using hf
            unfold ii_flush at h
            rw [hnm2] at h
            rw [if_neg (by simp)] at h
            rw [heof2] at h
            rw [if_neg (by simp)] at h
            rw [if_pos hdg] at h
            rw [if_pos ⟨hlm, hf2⟩] at h
            simp only [Except.ok.injEq, Prod.mk.injEq] at h
            obtain ⟨_, hs⟩ := h
            subst hs
            exact Or.inl hb
        · have hnr : ¬ (leftEdgeOf s < MAXLEN ∧ force = false) := by
            intro ⟨hco, _⟩
            exact hlm hco
          unfold ii_flush at h
          rw [hnm2] at h
          rw [if_neg (by simp)] at h
          rw [heof2] at h
          rw [if_neg (by simp)] at h
          rw [if_pos hdg] at h
          rw [if_neg hnr] at h
          simp only [if_neg hlm, ii_fillbuf] at h
          by_cases hneed : ((BUFSIZE - (s.end_buf - leftEdgeOf s)) / MAXLEN) * MAXLEN = 0
          · rw [if_pos hneed] at h
            simp at h
          · rw [if_neg hneed] at h
            by_cases hgot : min (((BUFSIZE - (s.end_buf - leftEdgeOf s)) / MAXLEN) * MAXLEN)
                s.source.length = 0
            · rw [if_pos hgot] at h
              simp at h
            · rw [if_neg hgot] at h
              simp only [Except.ok.injEq, Prod.mk.injEq] at h
              obtain ⟨_, hs⟩ := h
              rw [← hs] at hb
              exact mem_shifted s.buf s.source (leftEdgeOf s) (s.end_buf - leftEdgeOf s)
                (min (((BUFSIZE - (s.end_buf - leftEdgeOf s)) / MAXLEN) * MAXLEN)
                  s.source.length) b hb
      · unfold ii_flush at h
        rw [hnm2] at h
        rw [if_neg (by simp)] at h
        rw [heof2] at h
        rw [if_neg (by simp)] at h
        rw [if_neg hdg] at h
        simp only [Except.ok.injEq, Prod.mk.injEq] at h
        obtain ⟨_, hs⟩ := h
        subst hs
        exact Or.inl hb

/-- Conclusion of claim C8 (amended): the value ranges and sentinel
encodings of ii_advance and ii_look.  At end of input ii_advance returns
0, an in-band value identical to the no-data sentinel of ii_look, while
ii_look returns the out-of-band -1; every ii_look value lies in
[-1, 255], and every returning ii_advance value lies in [-1, 255], where
-1 from ii_advance means a refused flush, not end of input. -/
def c8Prop (s : IIState) : Prop :=
  (s.eof_read = true → s.end_buf ≤ s.next → ii_advance s = .ok (0, s))
  ∧ (s.eof_read = true → s.end_buf ≤ s.next → (ii_look 1 s).1 = -1)
  ∧ (∀ n : Int, -1 ≤ (ii_look n s).1 ∧ (ii_look n s).1 ≤ 255)
  ∧ (∀ v s1, ii_advance s = .ok (v, s1) → -1 ≤ v ∧ v ≤ 255)

/-- Claim C8 (amended): on a seeded state whose buffer and stream hold
byte values, ii_advance and ii_look return byte values in [0, 255] plus
sentinels in {-1, 0}, but the two end-of-input sentinels are not encoded
consistently: ii_advance reports end of input as 0, in band and identical
to a null byte, and reports a refused flush as -1, while ii_look reports
end of input as the out-of-band -1 and no-data as 0.  The counterexample
above exhibits the mismatch the original claim denies. -/
theorem c8_value_ranges (s : IIState) (hb : s.been_called = true)
    (hbuf : ∀ b ∈ s.buf, b ≤ 255) (hsrc : ∀ b ∈ s.source, b ≤ 255) : c8Prop s := by
  refine ⟨?_, ?_, ?_, ?_⟩
  · intro he hge
    have hNMC : noMoreChars s = true := by
      unfold noMoreChars
      rw [he]
      simpa using hge
    unfold ii_advance
    rw [hb]
    simp only [if_true]
    rw [if_pos hNMC]
  · intro he hge
    unfold ii_look
    rw [if_pos ⟨he, by push_cast; omega⟩]
  · intro n
    rw [show ii_look n s
        = (if s.eof_read = true ∧ (s.end_buf : Int) ≤ (s.next : Int) + (n - 1)
            then ((-1 : Int), s)
          else if ((s.next : Int) + (n - 1)) < 0
              ∨ (s.end_buf : Int) ≤ (s.next : Int) + (n - 1)
            then ((0 : Int), s)
          else ((s.buf.getD ((s.next : Int) + (n - 1)).toNat 0 : Int), s)) from rfl]
    split
    · exact ⟨by norm_num, by norm_num⟩
    · split
      · exact ⟨by norm_num, by norm_num⟩
      · refine ⟨?_, ?_⟩
        · show (-1 : Int) ≤ ((s.buf.getD ((s.next : Int) + (n - 1)).toNat 0 : Nat) : Int)
          have h0 : (0 : Int) ≤ ((s.buf.getD ((s.next : Int) + (n - 1)).toNat 0 : Nat) : Int) :=
            Int.natCast_nonneg _
          omega
        · show ((s.buf.getD ((s.next : Int) + (n - 1)).toNat 0 : Nat) : Int) ≤ 255
          exact_mod_cast getD_le_of_all_le s.buf ((s.next : Int) + (n - 1)).toNat hbuf
  · intro v s1 hadv
    unfold ii_advance at hadv
    rw [hb] at hadv
    simp only [if_true] at hadv
    by_cases hNMC : noMoreChars s = true
    · rw [if_pos hNMC] at hadv
      simp only [Except.ok.injEq, Prod.mk.injEq] at hadv
      obtain ⟨hv, _⟩ := hadv
      subst hv
      constructor
      · norm_num
      · norm_num
    · rw [if_neg hNMC] at hadv
      by_cases heof : s.eof_read = true
      · rw [if_pos heof] at hadv
        have hadv2 : (if (1 : Int) < 0 then Except.ok ((-1 : Int), s)
            else Except.ok ((s.buf.getD s.next 0 : Int),
              { (if s.buf.getD s.next 0 = 10 then { s with lineno := s.lineno + 1 } else s) with
                next := (if s.buf.getD s.next 0 = 10 then { s with lineno := s.lineno + 1 }
                  else s).next + 1 })) = Except.ok (v, s1) := hadv
        rw [if_neg (by norm_num)] at hadv2
        simp only [Except.ok.injEq, Prod.mk.injEq] at hadv2
        obtain ⟨hv, _⟩ := hadv2
        subst hv
        constructor
        · have h0 : (0 : Int) ≤ ((s.buf.getD s.next 0 : Nat) : Int) :=
            Int.natCast_nonneg _
          omega
        · have := getD_le_of_all_le s.buf s.next hbuf
          exact_mod_cast this
      · rw [if_neg heof] at hadv
        cases hflush : ii_flush false s with
        | error e =>
          rw [hflush] at hadv
          exact absurd hadv (by simp)
        | ok p =>
          obtain ⟨r1, sf⟩ := p
          rw [hflush] at hadv
          have hadv2 : (if r1 < 0 then Except.ok ((-1 : Int), sf)
              else Except.ok ((sf.buf.getD sf.next 0 : Int),
                { (if sf.buf.getD sf.next 0 = 10 then { sf with lineno := sf.lineno + 1 }
                    else sf) with
                  next := (if sf.buf.getD sf.next 0 = 10 then { sf with lineno := sf.lineno + 1 }
                    else sf).next + 1 })) = Except.ok (v, s1) := hadv
          have hsfbuf : ∀ b ∈ sf.buf, b ≤ 255 := by
            intro b hbm
            rcases ii_flush_buf_from false s r1 sf hflush b hbm with hc | hc
            · exact hbuf b hc
            · exact hsrc b hc
          by_cases hr : r1 < 0
          · rw [if_pos hr] at hadv2
            simp only [Except.ok.injEq, Prod.mk.injEq] at hadv2
            obtain ⟨hv, _⟩ := hadv2
            subst hv
            constructor
            · norm_num
            · norm_num
          · rw [if_neg hr] at hadv2
            simp only [Except.ok.injEq, Prod.mk.injEq] at hadv2
            obtain ⟨hv, _⟩ := hadv2
            subst hv
            constructor
            · have h0 : (0 : Int) ≤ ((sf.buf.getD sf.next 0 : Nat) : Int) :=
                Int.natCast_nonneg _
              omega
            · have := getD_le_of_all_le sf.buf sf.next hsfbuf
              exact_mod_cast this

/-- Concrete state used to witness claim C8 (amended). -/
def c8wstate : IIState :=
  { initState [] with been_called := true }

/-- Witness for claim C8 (amended) at a concrete state. -/
theorem c8_value_ranges_witness :
    (c8wstate.been_called = true
      ∧ (∀ b ∈ c8wstate.buf, b ≤ 255) ∧ (∀ b ∈ c8wstate.source, b ≤ 255))
    ∧ c8Prop c8wstate :=
  ⟨⟨rfl, by simp [c8wstate, initState], by simp [c8wstate, initState]⟩,
    c8_value_ranges c8wstate rfl (by simp [c8wstate, initState])
      (by simp [c8wstate, initState])⟩

end InputSystem
